import Mathlib

/-!
Verification development for the MCP-server configuration merge and
default-agent settings logic of the `superclaude-kiro` installer
(`src/installer.js` and `src/mcp-servers.js`).

JavaScript objects are modelled as ordered association lists
`List (String × V)`:
`jsLookup` is property access, `jsSet` is property assignment
(update in place when the key is present, append otherwise),
`jsSpread` is the object spread `\x7b...a, ...b\x7d` (right operand wins),
and `jsDelete` is the `delete` operator.
-/

namespace SuperClaudeKiro

section JsObject

variable {V A : Type}

/-- Property access `o[k]`: value of the first entry with key `k`, if any. -/
def jsLookup (o : List (String × V)) (k : String) : Option V :=
  match o with
  | [] => none
  | p :: rest => if p.1 = k then some p.2 else jsLookup rest k

/-- Property assignment `o[k] = v`: update in place when the key is present,
append otherwise. -/
def jsSet (o : List (String × V)) (k : String) (v : V) : List (String × V) :=
  if (jsLookup o k).isSome then
    o.map (fun p => if p.1 = k then (k, v) else p)
  else o ++ [(k, v)]

/-- Object spread of `b` onto `a`, right operand winning. -/
def jsSpread (a b : List (String × V)) : List (String × V) :=
  b.foldl (fun acc p => jsSet acc p.1 p.2) a

/-- The `delete o[k]` operator. -/
def jsDelete (o : List (String × V)) (k : String) : List (String × V) :=
  o.filter (fun p => p.1 ≠ k)

@[simp]
theorem jsLookup_nil (k : String) : jsLookup ([] : List (String × V)) k = none := rfl

@[simp]
theorem jsLookup_cons (p : String × V) (rest : List (String × V)) (k : String) :
    jsLookup (p :: rest) k = if p.1 = k then some p.2 else jsLookup rest k := rfl

theorem jsLookup_append_some {a : List (String × V)} {k : String} {v : V}
    (b : List (String × V)) (h : jsLookup a k = some v) :
    jsLookup (a ++ b) k = some v := by
  induction a with
  | nil => simp at h
  | cons p rest ih =>
    rw [List.cons_append, jsLookup_cons]
    rw [jsLookup_cons] at h
    by_cases hp : p.1 = k
    · rw [if_pos hp] at h ⊢
      exact h
    · rw [if_neg hp] at h ⊢
      exact ih h

theorem jsLookup_append_none {a : List (String × V)} {k : String}
    (b : List (String × V)) (h : jsLookup a k = none) :
    jsLookup (a ++ b) k = jsLookup b k := by
  induction a with
  | nil => simp
  | cons p rest ih =>
    rw [jsLookup_cons] at h
    split at h
    · simp at h
    · rw [List.cons_append, jsLookup_cons, if_neg (by assumption)]
      exact ih h

theorem jsLookup_eq_none_iff {o : List (String × V)} {k : String} :
    jsLookup o k = none ↔ ∀ p ∈ o, p.1 ≠ k := by
  induction o with
  | nil => simp
  | cons p rest ih =>
    rw [jsLookup_cons]
    by_cases hp : p.1 = k
    · simp [hp]
    · simp only [if_neg hp, ih, List.mem_cons]
      constructor
      · rintro h q (rfl | hq)
        · exact hp
        · exact h q hq
      · intro h q hq
        exact h q (Or.inr hq)

theorem jsLookup_isSome_iff_mem_keys {o : List (String × V)} {k : String} :
    (jsLookup o k).isSome ↔ k ∈ o.map (·.1) := by
  induction o with
  | nil => simp
  | cons p rest ih =>
    rw [jsLookup_cons]
    by_cases h : p.1 = k
    · simp [h]
    · simp only [if_neg h, List.map_cons, List.mem_cons, ih]
      constructor
      · intro hx; exact Or.inr hx
      · rintro (hx | hx)
        · exact absurd hx.symm h
        · exact hx

theorem jsLookup_map_update_self {o : List (String × V)} {k : String} {w : V}
    (v : V) (h : jsLookup o k = some w) :
    jsLookup (o.map (fun p => if p.1 = k then (k, v) else p)) k = some v := by
  induction o with
  | nil => simp at h
  | cons p rest ih =>
    rw [jsLookup_cons] at h
    by_cases hp : p.1 = k
    · simp [hp]
    · rw [if_neg hp] at h
      simp only [List.map_cons, if_neg hp, jsLookup_cons]
      exact ih h

theorem jsLookup_map_update_ne (o : List (String × V)) (k : String) (v : V)
    {k' : String} (h : k' ≠ k) :
    jsLookup (o.map (fun p => if p.1 = k then (k, v) else p)) k' = jsLookup o k' := by
  induction o with
  | nil => simp
  | cons p rest ih =>
    by_cases hp : p.1 = k
    · have h1 : ¬ (k = k') := fun hc => h hc.symm
      have h2 : ¬ (p.1 = k') := by rw [hp]; exact h1
      simp [hp, h1, h2, ih]
    · by_cases hk' : p.1 = k'
      · simp [hk', h]
      · simp [hp, hk', ih]

@[simp]
theorem jsLookup_jsSet_self (o : List (String × V)) (k : String) (v : V) :
    jsLookup (jsSet o k v) k = some v := by
  unfold jsSet
  split
  · next hs =>
    rcases Option.isSome_iff_exists.mp hs with ⟨w, hw⟩
    exact jsLookup_map_update_self v hw
  · next hs =>
    have hnone : jsLookup o k = none := by
      cases h : jsLookup o k with
      | some w => exact absurd (by simp [h]) hs
      | none => rfl
    rw [jsLookup_append_none _ hnone]
    simp

theorem jsLookup_jsSet_ne (o : List (String × V)) (k : String) (v : V)
    {k' : String} (h : k' ≠ k) : jsLookup (jsSet o k v) k' = jsLookup o k' := by
  unfold jsSet
  split
  · exact jsLookup_map_update_ne o k v h
  · cases hlk : jsLookup o k' with
    | some w => exact jsLookup_append_some _ hlk
    | none =>
      have h1 : ¬ (k = k') := fun hc => h hc.symm
      rw [jsLookup_append_none _ hlk]
      simp [h1, hlk]

theorem jsSet_of_lookup_none {o : List (String × V)} {k : String}
    (v : V) (h : jsLookup o k = none) : jsSet o k v = o ++ [(k, v)] := by
  unfold jsSet
  rw [h]
  simp

theorem keys_jsSet_of_isSome {o : List (String × V)} {k : String} (v : V)
    (h : (jsLookup o k).isSome) :
    (jsSet o k v).map (·.1) = o.map (·.1) := by
  unfold jsSet
  rw [if_pos h, List.map_map]
  apply List.map_congr_left
  intro p _
  by_cases hp : p.1 = k
  · simp [hp]
  · simp [hp]

theorem keys_jsSet_of_none {o : List (String × V)} {k : String} (v : V)
    (h : jsLookup o k = none) :
    (jsSet o k v).map (·.1) = o.map (·.1) ++ [k] := by
  rw [jsSet_of_lookup_none v h]
  simp

theorem nodup_keys_jsSet {o : List (String × V)} {k : String} (v : V)
    (h : (o.map (·.1)).Nodup) : ((jsSet o k v).map (·.1)).Nodup := by
  cases hlk : jsLookup o k with
  | some w =>
    rw [keys_jsSet_of_isSome v (by simp [hlk])]
    exact h
  | none =>
    rw [keys_jsSet_of_none v hlk]
    rw [List.nodup_append]
    refine ⟨h, List.nodup_singleton k, ?_⟩
    intro x hx hx'
    rcases List.mem_map.mp hx with ⟨p, hp, hpk⟩
    rcases List.mem_singleton.mp hx' with rfl
    exact (jsLookup_eq_none_iff.mp hlk p hp) hpk

theorem mem_jsSet {o : List (String × V)} {k : String} {v : V} {q : String × V}
    (h : q ∈ jsSet o k v) : q = (k, v) ∨ q ∈ o := by
  unfold jsSet at h
  split at h
  · rcases List.mem_map.mp h with ⟨p, hp, hpq⟩
    by_cases hc : p.1 = k
    · rw [if_pos hc] at hpq
      exact Or.inl hpq.symm
    · rw [if_neg hc] at hpq
      exact Or.inr (hpq ▸ hp)
  · rcases List.mem_append.mp h with hm | hm
    · exact Or.inr hm
    · exact Or.inl (List.mem_singleton.mp hm)

theorem jsSet_ne_nil (o : List (String × V)) (k : String) (v : V) :
    jsSet o k v ≠ [] := by
  unfold jsSet
  split
  · intro hc
    cases o with
    | nil => simp at *
    | cons p rest => simp at hc
  · intro hc
    cases o <;> simp at hc

theorem jsLookup_filter {o : List (String × V)} {k : String}
    {pred : String × V → Bool} (h : ∀ p : String × V, p.1 = k → pred p = true) :
    jsLookup (o.filter pred) k = jsLookup o k := by
  induction o with
  | nil => simp
  | cons p rest ih =>
    by_cases hp : p.1 = k
    · rw [List.filter_cons, if_pos (h p hp)]
      simp [hp, ih]
    · rw [List.filter_cons]
      split
      · simp only [jsLookup_cons, if_neg hp]
        exact ih
      · rw [jsLookup_cons, if_neg hp]
        exact ih

theorem jsLookup_jsDelete_self (o : List (String × V)) (k : String) :
    jsLookup (jsDelete o k) k = none := by
  unfold jsDelete
  rw [jsLookup_eq_none_iff]
  intro p hp
  have := List.of_mem_filter hp
  simpa using this

theorem jsLookup_jsDelete_ne (o : List (String × V)) (k : String)
    {k' : String} (h : k' ≠ k) : jsLookup (jsDelete o k) k' = jsLookup o k' := by
  unfold jsDelete
  apply jsLookup_filter
  intro p hp
  simp [hp, h]

/-- Fold of keyed assignments over fresh, key-distinct entries appends them. -/
theorem foldl_jsSet_fresh {g : String → A → V} :
    ∀ (l : List (String × A)) (acc : List (String × V)),
      (l.map (·.1)).Nodup → (∀ p ∈ l, jsLookup acc p.1 = none) →
      l.foldl (fun a p => jsSet a p.1 (g p.1 p.2)) acc
        = acc ++ l.map (fun p => (p.1, g p.1 p.2)) := by
  intro l
  induction l with
  | nil => intro acc _ _; simp
  | cons p rest ih =>
    intro acc hnodup hfresh
    rw [List.foldl_cons, jsSet_of_lookup_none _ (hfresh p (by simp))]
    rw [List.map_cons] at hnodup
    have hrest := ih (acc ++ [(p.1, g p.1 p.2)]) (List.Nodup.of_cons hnodup)
      (by
        intro q hq
        rw [jsLookup_append_none _ (hfresh q (by simp [hq]))]
        have hne : q.1 ≠ p.1 := by
          intro hc
          have : p.1 ∈ rest.map (·.1) := hc ▸ List.mem_map_of_mem _ hq
          exact (List.nodup_cons.mp hnodup).1 this
        have hne' : ¬ (p.1 = q.1) := fun hc => hne hc.symm
        simp [hne'])
    rw [hrest, List.append_assoc]
    simp

/-- Spreading a key-distinct object onto a fresh base appends it. -/
theorem jsSpread_fresh {a b : List (String × V)}
    (hnodup : (b.map (·.1)).Nodup) (hfresh : ∀ p ∈ b, jsLookup a p.1 = none) :
    jsSpread a b = a ++ b := by
  unfold jsSpread
  have := foldl_jsSet_fresh (g := fun _ v => v) b a hnodup hfresh
  simpa using this

theorem nodup_keys_foldl_jsSet {g : String → A → V} :
    ∀ (l : List (String × A)) (acc : List (String × V)),
      (acc.map (·.1)).Nodup →
      ((l.foldl (fun a p => jsSet a p.1 (g p.1 p.2)) acc).map (·.1)).Nodup := by
  intro l
  induction l with
  | nil => intro acc h; simpa using h
  | cons p rest ih =>
    intro acc h
    rw [List.foldl_cons]
    exact ih _ (nodup_keys_jsSet _ h)

theorem nodup_keys_jsSpread {a b : List (String × V)}
    (h : (a.map (·.1)).Nodup) : ((jsSpread a b).map (·.1)).Nodup :=
  nodup_keys_foldl_jsSet (g := fun _ v => v) b a h

/-- The key list of a spread extends the key list of the left operand. -/
theorem keys_jsSpread_ext (a b : List (String × V)) :
    ∃ ext, (jsSpread a b).map (·.1) = a.map (·.1) ++ ext := by
  unfold jsSpread
  induction b generalizing a with
  | nil => exact ⟨[], by simp⟩
  | cons p rest ih =>
    rw [List.foldl_cons]
    rcases ih (jsSet a p.1 p.2) with ⟨ext, hext⟩
    cases hlk : jsLookup a p.1 with
    | some w =>
      refine ⟨ext, ?_⟩
      rw [hext, keys_jsSet_of_isSome _ (by simp [hlk])]
    | none =>
      refine ⟨p.1 :: ext, ?_⟩
      rw [hext, keys_jsSet_of_none _ hlk]
      simp

end JsObject

/-!
Data model translated from `src/mcp-servers.js`.
-/

/-- An MCP server configuration body: the shape written into
`mcpServers` entries of `settings/mcp.json` (`command`, `args`,
`autoApprove`, and an optional `env` object). -/
structure McpEntry where
  command : String
  args : List String
  autoApprove : List String
  env : Option (List (String × String))
  deriving DecidableEq

/-- A registry entry of `MCP_SERVERS` (the fields the installer logic
reads: UI-only fields such as `displayName` are omitted). -/
structure ServerDef where
  name : String
  requiresApiKey : Bool
  apiKeyEnvVar : Option String
  config : McpEntry
  deriving DecidableEq

/-- The static server registry `MCP_SERVERS` of `src/mcp-servers.js`,
as an ordered association list (a JS object keyed by server name). -/
def MCP_SERVERS : List (String × ServerDef) :=
  [ ("sequential-thinking",
      { name := "sequential-thinking"
        requiresApiKey := false
        apiKeyEnvVar := none
        config :=
          { command := "npx"
            args := ["-y", "@modelcontextprotocol/server-sequential-thinking"]
            autoApprove := ["sequentialthinking"]
            env := none } }),
    ("context7",
      { name := "context7"
        requiresApiKey := false
        apiKeyEnvVar := none
        config :=
          { command := "npx"
            args := ["-y", "@upstash/context7-mcp"]
            autoApprove := ["resolve-library-id", "get-library-docs"]
            env := none } }),
    ("playwright",
      { name := "playwright"
        requiresApiKey := false
        apiKeyEnvVar := none
        config :=
          { command := "npx"
            args := ["-y", "@playwright/mcp@latest"]
            autoApprove :=
              ["browser_close", "browser_resize", "browser_console_messages",
               "browser_handle_dialog", "browser_evaluate", "browser_file_upload",
               "browser_fill_form", "browser_install", "browser_press_key",
               "browser_type", "browser_navigate", "browser_navigate_back",
               "browser_network_requests", "browser_run_code", "browser_take_screenshot",
               "browser_snapshot", "browser_click", "browser_drag", "browser_hover",
               "browser_select_option", "browser_tabs", "browser_wait_for"]
            env := none } }),
    ("serena",
      { name := "serena"
        requiresApiKey := false
        apiKeyEnvVar := none
        config :=
          { command := "uvx"
            args :=
              ["--from", "git+https://github.com/oraios/serena",
               "serena", "start-mcp-server",
               "--context", "ide-assistant",
               "--enable-web-dashboard", "false",
               "--enable-gui-log-window", "false"]
            autoApprove :=
              ["list_dir", "find_file", "search_for_pattern", "get_symbols_overview",
               "find_symbol", "find_referencing_symbols", "replace_symbol_body",
               "insert_after_symbol", "insert_before_symbol", "rename_symbol",
               "write_memory", "read_memory", "list_memories", "delete_memory",
               "edit_memory", "activate_project", "get_current_config",
               "check_onboarding_performed", "onboarding", "think_about_collected_information",
               "think_about_task_adherence", "think_about_whether_you_are_done",
               "initial_instructions"]
            env := none } }),
    ("morphllm-fast-apply",
      { name := "morphllm-fast-apply"
        requiresApiKey := true
        apiKeyEnvVar := some "MORPH_API_KEY"
        config :=
          { command := "npx"
            args := ["-y", "@morph-llm/morph-fast-apply"]
            autoApprove := ["edit_file"]
            env := none } }) ]

/-- `MANAGED_SERVERS = Object.keys(MCP_SERVERS)`. -/
def MANAGED_SERVERS : List String := MCP_SERVERS.map (·.1)

/-- `CORE_SERVERS`: registry names not requiring an API key. -/
def CORE_SERVERS : List String :=
  (MCP_SERVERS.filter (fun p => !p.2.requiresApiKey)).map (·.1)

/-- JS truthiness of a string-or-undefined value: `undefined` and the
empty string are falsy. -/
def truthyStr (o : Option String) : Bool :=
  match o with
  | some s => s ≠ ""
  | none => false

/-- The JS expression `x || null` on a string-or-undefined value. -/
def jsOrNull (o : Option String) : Option String :=
  if truthyStr o then o else none

/-- `buildServerConfig(serverName, apiKey)` from `src/mcp-servers.js`:
copy the registry launch configuration, adding the credential env var
when an API key is supplied (truthy) and the server requires one;
`null` when the name is not in the registry. -/
def buildServerConfig (serverName : String) (apiKey : Option String) : Option McpEntry :=
  match jsLookup MCP_SERVERS serverName with
  | none => none
  | some server =>
    let config := server.config
    if truthyStr apiKey && server.requiresApiKey then
      some { config with env := some [(server.apiKeyEnvVar.getD "undefined", apiKey.getD "")] }
    else
      some config

/-!
The merge engine, translated from `configureMcpServers` in
`src/installer.js` (lines 373-434).  The pure core maps
(existing `mcpServers` object, selected server names, API keys) to the
new `mcpServers` object.
-/

/-- First loop of `configureMcpServers` with its loop state explicit:
build `newServers` from the selected names, skipping names the
registry does not know. -/
def newServersAux (apiKeys : List (String × String)) (acc : List (String × McpEntry)) :
    List String → List (String × McpEntry)
  | [] => acc
  | serverName :: rest =>
    newServersAux apiKeys
      (match buildServerConfig serverName (jsOrNull (jsLookup apiKeys serverName)) with
       | some config => jsSet acc serverName config
       | none => acc)
      rest

/-- First loop of `configureMcpServers`: build `newServers` from the
selected names, skipping names the registry does not know. -/
def newServersOf (selectedServers : List String) (apiKeys : List (String × String)) :
    List (String × McpEntry) :=
  newServersAux apiKeys [] selectedServers

/-- Loop copying every existing server whose name is not managed, with
its loop state explicit. -/
def dropManagedAux (acc : List (String × McpEntry)) :
    List (String × McpEntry) → List (String × McpEntry)
  | [] => acc
  | p :: rest =>
    dropManagedAux (if MANAGED_SERVERS.contains p.1 then acc else jsSet acc p.1 p.2) rest

/-- Second loop of `configureMcpServers`, first half: copy every
existing server whose name is not managed. -/
def dropManaged (existing : List (String × McpEntry)) : List (String × McpEntry) :=
  dropManagedAux [] existing

/-- The merged env computed by `configureMcpServers` for a selected
managed server with a pre-existing entry: spread the existing env over
the fresh one (existing keys win), then let a newly supplied (truthy)
API key override the credential env var. -/
def envAfterMerge (apiKeys : List (String × String)) (name : String)
    (config existingServer : McpEntry) : List (String × String) :=
  let mergedEnv := jsSpread (config.env.getD []) (existingServer.env.getD [])
  if truthyStr (jsLookup apiKeys name) then
    match jsLookup MCP_SERVERS name with
    | some server =>
      match server.apiKeyEnvVar with
      | some envVar => jsSet mergedEnv envVar ((jsLookup apiKeys name).getD "")
      | none => mergedEnv
    | none => mergedEnv
  else mergedEnv

/-- Body of the `configureMcpServers` loop over `newServers`: merge a
fresh managed config with a pre-existing entry of the same name (the
`env` key is included only when the merged env is nonempty). -/
def mergeServerEntry (existingServers : List (String × McpEntry))
    (apiKeys : List (String × String)) (name : String) (config : McpEntry) : McpEntry :=
  match jsLookup existingServers name with
  | some existingServer =>
    let mergedEnv := envAfterMerge apiKeys name config existingServer
    { config with env := if mergedEnv.length > 0 then some mergedEnv else config.env }
  | none => config

/-- Second loop of `configureMcpServers`, second half, with its loop
state explicit: add or update every selected managed server. -/
def mergeLoopAux (existing : List (String × McpEntry)) (apiKeys : List (String × String))
    (acc : List (String × McpEntry)) :
    List (String × McpEntry) → List (String × McpEntry)
  | [] => acc
  | p :: rest =>
    mergeLoopAux existing apiKeys
      (jsSet acc p.1 (mergeServerEntry existing apiKeys p.1 p.2)) rest

/-- The pure core of `configureMcpServers` (`src/installer.js`
lines 383-430): produce the merged `mcpServers` object from the
existing one, the selected server names, and the supplied API keys. -/
def configureMcpServers (existing : List (String × McpEntry))
    (selectedServers : List String) (apiKeys : List (String × String)) :
    List (String × McpEntry) :=
  mergeLoopAux existing apiKeys (dropManaged existing) (newServersOf selectedServers apiKeys)

/-!
The default-agent settings operations, translated from
`setDefaultAgent` (`src/installer.js` lines 436-452) and the
default-agent reset step of `uninstallSuperClaude` (lines 262-270).
Settings values are JSON scalars, modelled by `JVal`.
-/

/-- A JSON scalar value as stored in `settings/cli.json`. -/
inductive JVal where
  | s : String → JVal
  | b : Bool → JVal
  | n : Int → JVal
  | null : JVal
  deriving DecidableEq

/-- JS truthiness of a `JVal`. -/
def jTruthy (v : JVal) : Bool :=
  match v with
  | .s str => str ≠ ""
  | .b bv => bv
  | .n iv => iv ≠ 0
  | .null => false

/-- The JS expression `x || d` on a possibly-undefined setting value. -/
def jsOr (o : Option JVal) (d : JVal) : JVal :=
  match o with
  | some v => if jTruthy v then v else d
  | none => d

/-- Pure core of `setDefaultAgent` (`src/installer.js` lines 444-448):
the successive assignments performed on the `cli.json` settings map. -/
def setDefaultAgent (settings : List (String × JVal)) : List (String × JVal) :=
  let s1 := jsSet settings "chat.defaultAgent" (JVal.s "superclaude")
  let s2 := jsSet s1 "chat.model" (jsOr (jsLookup s1 "chat.model") (JVal.s "claude-sonnet-4.5"))
  let s3 := jsSet s2 "chat.enableThinking"
    (JVal.b (jsLookup s2 "chat.enableThinking" != some (JVal.b false)))
  let s4 := jsSet s3 "chat.enableTodoList"
    (JVal.b (jsLookup s3 "chat.enableTodoList" != some (JVal.b false)))
  jsSet s4 "chat.enableDelegate"
    (JVal.b (jsLookup s4 "chat.enableDelegate" != some (JVal.b false)))

/-- The default-agent reset step of `uninstallSuperClaude`
(`src/installer.js` lines 265-269): delete `chat.defaultAgent` exactly
when its value is the string `superclaude`. -/
def unsetDefaultAgent (settings : List (String × JVal)) : List (String × JVal) :=
  if jsLookup settings "chat.defaultAgent" = some (JVal.s "superclaude") then
    jsDelete settings "chat.defaultAgent"
  else settings

end SuperClaudeKiro


namespace SuperClaudeKiro

/-!
Structural lemmas about the merge engine.
-/

theorem jsLookup_mem {V : Type} {o : List (String × V)} {k : String} {v : V}
    (h : jsLookup o k = some v) : (k, v) ∈ o := by
  induction o with
  | nil => simp at h
  | cons p rest ih =>
    rw [jsLookup_cons] at h
    by_cases hp : p.1 = k
    · rw [if_pos hp] at h
      have hv : v = p.2 := by
        injection h with h'
        exact h'.symm
      subst hv
      rw [← hp]
      exact List.mem_cons_self _ _
    · rw [if_neg hp] at h
      exact List.mem_cons_of_mem _ (ih h)

/-- Facts about the static registry used by the merge: launch configs
carry no `env`, and the credential env var is present exactly for
servers requiring an API key. -/
theorem registry_wf {name : String} {server : ServerDef}
    (h : jsLookup MCP_SERVERS name = some server) :
    server.config.env = none ∧ server.apiKeyEnvVar.isSome = server.requiresApiKey := by
  have hm := jsLookup_mem h
  simp only [MCP_SERVERS, List.mem_cons, List.not_mem_nil, or_false] at hm
  rcases hm with hm | hm | hm | hm | hm <;>
    (injection hm with h1 h2; subst h2; exact ⟨rfl, rfl⟩)

theorem contains_managed_iff {k : String} :
    MANAGED_SERVERS.contains k = true ↔ (jsLookup MCP_SERVERS k).isSome := by
  rw [jsLookup_isSome_iff_mem_keys]
  unfold MANAGED_SERVERS
  simp [List.contains_iff_exists_mem_beq]

theorem contains_managed_of_isSome {k : String}
    (h : (jsLookup MCP_SERVERS k).isSome) : MANAGED_SERVERS.contains k = true :=
  contains_managed_iff.mpr h

theorem contains_managed_eq_false {k : String}
    (h : jsLookup MCP_SERVERS k = none) : MANAGED_SERVERS.contains k = false := by
  cases hc : MANAGED_SERVERS.contains k with
  | false => rfl
  | true =>
    have := contains_managed_iff.mp hc
    rw [h] at this
    simp at this

theorem buildServerConfig_eq {name : String} {server : ServerDef}
    (h : jsLookup MCP_SERVERS name = some server) (apiKey : Option String) :
    buildServerConfig name apiKey =
      some (if truthyStr apiKey && server.requiresApiKey then
              { server.config with
                  env := some [(server.apiKeyEnvVar.getD "undefined", apiKey.getD "")] }
            else server.config) := by
  unfold buildServerConfig
  rw [h]
  by_cases hc : truthyStr apiKey && server.requiresApiKey <;> simp [hc]

theorem buildServerConfig_of_none {name : String}
    (h : jsLookup MCP_SERVERS name = none) (apiKey : Option String) :
    buildServerConfig name apiKey = none := by
  unfold buildServerConfig
  rw [h]

theorem registry_isSome_of_buildServerConfig {name : String} {apiKey : Option String}
    {config : McpEntry} (h : buildServerConfig name apiKey = some config) :
    (jsLookup MCP_SERVERS name).isSome := by
  cases hl : jsLookup MCP_SERVERS name with
  | some server => simp
  | none => rw [buildServerConfig_of_none hl] at h; simp at h

theorem mem_keys_jsSet {V : Type} {o : List (String × V)} {k k' : String} {v : V}
    (h : k' ∈ (jsSet o k v).map (·.1)) : k' = k ∨ k' ∈ o.map (·.1) := by
  rcases List.mem_map.mp h with ⟨q, hq, rfl⟩
  rcases mem_jsSet hq with rfl | hmem
  · exact Or.inl rfl
  · exact Or.inr (List.mem_map_of_mem _ hmem)

/-- Invariant of the `newServers` loop: keys are distinct and every
entry is the build of its own name. -/
theorem newServersAux_inv (apiKeys : List (String × String)) :
    ∀ (sel : List String) (acc : List (String × McpEntry)),
      ((acc.map (·.1)).Nodup ∧
        ∀ p ∈ acc, buildServerConfig p.1 (jsOrNull (jsLookup apiKeys p.1)) = some p.2) →
      ((newServersAux apiKeys acc sel).map (·.1)).Nodup ∧
        ∀ p ∈ newServersAux apiKeys acc sel,
          buildServerConfig p.1 (jsOrNull (jsLookup apiKeys p.1)) = some p.2 := by
  intro sel
  induction sel with
  | nil => intro acc h; exact h
  | cons s rest ih =>
    intro acc h
    rw [newServersAux]
    cases hb : buildServerConfig s (jsOrNull (jsLookup apiKeys s)) with
    | none => exact ih acc h
    | some config =>
      apply ih
      constructor
      · exact nodup_keys_jsSet _ h.1
      · intro q hq
        rcases mem_jsSet hq with rfl | hmem
        · exact hb
        · exact h.2 q hmem

theorem newServersOf_nodup (sel : List String) (apiKeys : List (String × String)) :
    ((newServersOf sel apiKeys).map (·.1)).Nodup :=
  (newServersAux_inv apiKeys sel [] (by simp)).1

theorem newServersOf_build {sel : List String} {apiKeys : List (String × String)}
    {p : String × McpEntry} (h : p ∈ newServersOf sel apiKeys) :
    buildServerConfig p.1 (jsOrNull (jsLookup apiKeys p.1)) = some p.2 :=
  (newServersAux_inv apiKeys sel [] (by simp)).2 p h

theorem newServersAux_keys (apiKeys : List (String × String)) :
    ∀ (sel : List String) (acc : List (String × McpEntry)) (k : String),
      k ∈ (newServersAux apiKeys acc sel).map (·.1) →
      k ∈ acc.map (·.1) ∨ k ∈ sel := by
  intro sel
  induction sel with
  | nil => intro acc k h; exact Or.inl h
  | cons s rest ih =>
    intro acc k h
    rw [newServersAux] at h
    cases hb : buildServerConfig s (jsOrNull (jsLookup apiKeys s)) with
    | none =>
      rw [hb] at h
      rcases ih acc k h with hk | hk
      · exact Or.inl hk
      · exact Or.inr (List.mem_cons_of_mem _ hk)
    | some config =>
      rw [hb] at h
      rcases ih _ k h with hk | hk
      · rcases mem_keys_jsSet hk with rfl | hk'
        · exact Or.inr (List.mem_cons_self _ _)
        · exact Or.inl hk'
      · exact Or.inr (List.mem_cons_of_mem _ hk)

theorem newServersAux_lookup (apiKeys : List (String × String)) {name : String}
    {c : McpEntry} (hb : buildServerConfig name (jsOrNull (jsLookup apiKeys name)) = some c) :
    ∀ (sel : List String) (acc : List (String × McpEntry)),
      (name ∈ sel ∨ jsLookup acc name = some c) →
      jsLookup (newServersAux apiKeys acc sel) name = some c := by
  intro sel
  induction sel with
  | nil =>
    intro acc h
    rcases h with h | h
    · simp at h
    · exact h
  | cons s rest ih =>
    intro acc h
    rw [newServersAux]
    by_cases hs : s = name
    · subst hs
      rw [hb]
      exact ih _ (Or.inr (jsLookup_jsSet_self _ _ _))
    · cases hbs : buildServerConfig s (jsOrNull (jsLookup apiKeys s)) with
      | none =>
        apply ih
        rcases h with h | h
        · rcases List.mem_cons.mp h with h' | h'
          · exact absurd h'.symm hs
          · exact Or.inl h'
        · exact Or.inr h
      | some cs =>
        apply ih
        rcases h with h | h
        · rcases List.mem_cons.mp h with h' | h'
          · exact absurd h'.symm hs
          · exact Or.inl h'
        · exact Or.inr (by rw [jsLookup_jsSet_ne _ _ _ (fun hc => hs hc.symm)]; exact h)

theorem newServersOf_lookup {sel : List String} {apiKeys : List (String × String)}
    {name : String} {c : McpEntry} (hsel : name ∈ sel)
    (hb : buildServerConfig name (jsOrNull (jsLookup apiKeys name)) = some c) :
    jsLookup (newServersOf sel apiKeys) name = some c :=
  newServersAux_lookup apiKeys hb sel [] (Or.inl hsel)

/-- All keys accumulated by the unmanaged-copy loop are unmanaged. -/
theorem dropManagedAux_unmanaged :
    ∀ (l acc : List (String × McpEntry)),
      (∀ k ∈ acc.map (·.1), MANAGED_SERVERS.contains k = false) →
      ∀ k ∈ (dropManagedAux acc l).map (·.1), MANAGED_SERVERS.contains k = false := by
  intro l
  induction l with
  | nil => intro acc h; exact h
  | cons p rest ih =>
    intro acc h
    rw [dropManagedAux]
    by_cases hm : MANAGED_SERVERS.contains p.1 = true
    · rw [if_pos hm]
      exact ih acc h
    · rw [if_neg hm]
      apply ih
      intro k hk
      rcases mem_keys_jsSet hk with rfl | hk'
      · simpa using hm
      · exact h k hk'

theorem dropManagedAux_nodup :
    ∀ (l acc : List (String × McpEntry)), (acc.map (·.1)).Nodup →
      ((dropManagedAux acc l).map (·.1)).Nodup := by
  intro l
  induction l with
  | nil => intro acc h; exact h
  | cons p rest ih =>
    intro acc h
    rw [dropManagedAux]
    split
    · exact ih acc h
    · exact ih _ (nodup_keys_jsSet _ h)

theorem dropManagedAux_keys :
    ∀ (l acc : List (String × McpEntry)) (k : String),
      k ∈ (dropManagedAux acc l).map (·.1) → k ∈ acc.map (·.1) ∨ k ∈ l.map (·.1) := by
  intro l
  induction l with
  | nil => intro acc k h; exact Or.inl h
  | cons p rest ih =>
    intro acc k h
    rw [dropManagedAux] at h
    split at h
    · rcases ih acc k h with hk | hk
      · exact Or.inl hk
      · exact Or.inr (List.mem_cons_of_mem _ hk)
    · rcases ih _ k h with hk | hk
      · rcases mem_keys_jsSet hk with rfl | hk'
        · exact Or.inr (List.mem_cons_self _ _)
        · exact Or.inl hk'
      · exact Or.inr (List.mem_cons_of_mem _ hk)

theorem dropManagedAux_skip :
    ∀ (l acc : List (String × McpEntry)),
      (∀ p ∈ l, MANAGED_SERVERS.contains p.1 = true) → dropManagedAux acc l = acc := by
  intro l
  induction l with
  | nil => intro acc _; rfl
  | cons p rest ih =>
    intro acc h
    rw [dropManagedAux, if_pos (h p (List.mem_cons_self _ _))]
    exact ih acc (fun q hq => h q (List.mem_cons_of_mem _ hq))

theorem dropManagedAux_filter :
    ∀ (l acc : List (String × McpEntry)), (l.map (·.1)).Nodup →
      (∀ p ∈ l, jsLookup acc p.1 = none) →
      dropManagedAux acc l = acc ++ l.filter (fun p => !MANAGED_SERVERS.contains p.1) := by
  intro l
  induction l with
  | nil => intro acc _ _; simp [dropManagedAux]
  | cons p rest ih =>
    intro acc hnodup hfresh
    rw [List.map_cons, List.nodup_cons] at hnodup
    rw [dropManagedAux, List.filter_cons]
    by_cases hm : MANAGED_SERVERS.contains p.1 = true
    · rw [if_pos hm]
      rw [if_neg (by rw [hm]; simp)]
      exact ih acc hnodup.2 (fun q hq => hfresh q (List.mem_cons_of_mem _ hq))
    · have hm' : MANAGED_SERVERS.contains p.1 = false := by
        cases h : MANAGED_SERVERS.contains p.1 with
        | false => rfl
        | true => exact absurd h hm
      rw [if_neg hm]
      rw [if_pos (by rw [hm']; rfl)]
      rw [jsSet_of_lookup_none _ (hfresh p (List.mem_cons_self _ _))]
      rw [ih (acc ++ [(p.1, p.2)]) hnodup.2 ?hfr]
      · simp [List.append_assoc]
      case hfr =>
        intro q hq
        rw [jsLookup_append_none _ (hfresh q (List.mem_cons_of_mem _ hq))]
        have hne : ¬ (p.1 = q.1) := by
          intro hc
          exact hnodup.1 (hc ▸ List.mem_map_of_mem _ hq)
        simp [hne]

theorem dropManaged_unmanaged {e : List (String × McpEntry)} {k : String}
    (h : k ∈ (dropManaged e).map (·.1)) : MANAGED_SERVERS.contains k = false :=
  dropManagedAux_unmanaged e [] (by simp) k h

theorem dropManaged_nodup (e : List (String × McpEntry)) :
    ((dropManaged e).map (·.1)).Nodup :=
  dropManagedAux_nodup e [] (by simp)

theorem dropManaged_lookup_managed {e : List (String × McpEntry)} {k : String}
    (h : MANAGED_SERVERS.contains k = true) : jsLookup (dropManaged e) k = none := by
  cases hl : jsLookup (dropManaged e) k with
  | none => rfl
  | some v =>
    have hk : k ∈ (dropManaged e).map (·.1) :=
      jsLookup_isSome_iff_mem_keys.mp (by simp [hl])
    rw [dropManaged_unmanaged hk] at h
    simp at h

theorem dropManaged_filter {e : List (String × McpEntry)} (h : (e.map (·.1)).Nodup) :
    dropManaged e = e.filter (fun p => !MANAGED_SERVERS.contains p.1) := by
  unfold dropManaged
  rw [dropManagedAux_filter e [] h (by simp)]
  simp

theorem mergeLoopAux_fresh (e : List (String × McpEntry)) (apiKeys : List (String × String)) :
    ∀ (l acc : List (String × McpEntry)), (l.map (·.1)).Nodup →
      (∀ p ∈ l, jsLookup acc p.1 = none) →
      mergeLoopAux e apiKeys acc l
        = acc ++ l.map (fun p => (p.1, mergeServerEntry e apiKeys p.1 p.2)) := by
  intro l
  induction l with
  | nil => intro acc _ _; simp [mergeLoopAux]
  | cons p rest ih =>
    intro acc hnodup hfresh
    rw [List.map_cons, List.nodup_cons] at hnodup
    rw [mergeLoopAux, jsSet_of_lookup_none _ (hfresh p (List.mem_cons_self _ _))]
    rw [ih _ hnodup.2 ?hfr]
    · simp [List.append_assoc]
    case hfr =>
      intro q hq
      rw [jsLookup_append_none _ (hfresh q (List.mem_cons_of_mem _ hq))]
      have hne : ¬ (p.1 = q.1) := by
        intro hc
        exact hnodup.1 (hc ▸ List.mem_map_of_mem _ hq)
      simp [hne]

/-- Decomposition of the merge: unmanaged copies first, then the
merged selected managed servers in selection order. -/
theorem configureMcpServers_eq (e : List (String × McpEntry)) (sel : List String)
    (apiKeys : List (String × String)) :
    configureMcpServers e sel apiKeys
      = dropManaged e ++ (newServersOf sel apiKeys).map
          (fun p => (p.1, mergeServerEntry e apiKeys p.1 p.2)) := by
  unfold configureMcpServers
  apply mergeLoopAux_fresh e apiKeys (newServersOf sel apiKeys) (dropManaged e)
    (newServersOf_nodup sel apiKeys)
  intro p hp
  exact dropManaged_lookup_managed
    (contains_managed_of_isSome (registry_isSome_of_buildServerConfig (newServersOf_build hp)))

end SuperClaudeKiro

namespace SuperClaudeKiro

/-!
Characterizations of `mergeServerEntry` and `envAfterMerge`, and the
fixpoint property of merging that drives idempotence.
-/

theorem jsLookup_of_mem_nodup {V : Type} {l : List (String × V)} {k : String} {v : V}
    (hnodup : (l.map (·.1)).Nodup) (hmem : (k, v) ∈ l) : jsLookup l k = some v := by
  induction l with
  | nil => simp at hmem
  | cons p rest ih =>
    rw [List.map_cons, List.nodup_cons] at hnodup
    rcases List.mem_cons.mp hmem with heq | hmem'
    · rw [← heq]
      simp
    · rw [jsLookup_cons]
      by_cases hp : p.1 = k
      · exfalso
        apply hnodup.1
        rw [hp]
        exact List.mem_map_of_mem _ hmem'
      · rw [if_neg hp]
        exact ih hnodup.2 hmem'

theorem jsLookup_map_val {V W : Type} {l : List (String × V)} {k : String} {v : V}
    (g : String → V → W) (h : jsLookup l k = some v) :
    jsLookup (l.map (fun p => (p.1, g p.1 p.2))) k = some (g k v) := by
  induction l with
  | nil => simp at h
  | cons p rest ih =>
    rw [jsLookup_cons] at h
    simp only [List.map_cons, jsLookup_cons]
    by_cases hp : p.1 = k
    · rw [if_pos hp] at h
      injection h with h'
      rw [if_pos hp, hp, h']
    · rw [if_neg hp] at h ⊢
      exact ih h

theorem map_update_eq_self {V : Type} {o : List (String × V)} {k : String} {v : V}
    (hall : ∀ p ∈ o, p.1 = k → p.2 = v) :
    o.map (fun p => if p.1 = k then (k, v) else p) = o := by
  induction o with
  | nil => rfl
  | cons p rest ih =>
    rw [List.map_cons, ih (fun q hq => hall q (List.mem_cons_of_mem _ hq))]
    congr 1
    by_cases hc : p.1 = k
    · rw [if_pos hc]
      have hv := hall p (List.mem_cons_self _ _) hc
      rw [← hc, ← hv]
    · rw [if_neg hc]

theorem jsSet_head_update {V : Type} {q : String × V} {rest : List (String × V)}
    {ev : String} (key : V) (hq : q.1 = ev) (hni : ev ∉ rest.map (·.1)) :
    jsSet (q :: rest) ev key = (ev, key) :: rest := by
  unfold jsSet
  rw [if_pos (by simp [hq])]
  rw [List.map_cons, if_pos hq]
  congr 1
  apply map_update_eq_self
  intro p hp hc
  exact ((hni (hc ▸ List.mem_map_of_mem _ hp)).elim)

theorem truthyStr_jsOrNull (o : Option String) : truthyStr (jsOrNull o) = truthyStr o := by
  by_cases h : truthyStr o = true
  · unfold jsOrNull
    rw [if_pos h]
  · have h' : truthyStr o = false := by
      cases hx : truthyStr o with
      | false => rfl
      | true => exact absurd hx h
    unfold jsOrNull
    rw [h']
    simp [truthyStr, h']

theorem jsOrNull_of_truthy {o : Option String} (h : truthyStr o = true) :
    jsOrNull o = o := by
  unfold jsOrNull
  rw [if_pos h]

theorem mergeServerEntry_of_some {e : List (String × McpEntry)}
    {apiKeys : List (String × String)} {name : String} {ex : McpEntry}
    (config : McpEntry) (hx : jsLookup e name = some ex) :
    mergeServerEntry e apiKeys name config =
      { config with
          env := if (envAfterMerge apiKeys name config ex).length > 0 then
                   some (envAfterMerge apiKeys name config ex)
                 else config.env } := by
  unfold mergeServerEntry
  rw [hx]

theorem mergeServerEntry_of_none {e : List (String × McpEntry)}
    {apiKeys : List (String × String)} {name : String}
    (config : McpEntry) (hx : jsLookup e name = none) :
    mergeServerEntry e apiKeys name config = config := by
  unfold mergeServerEntry
  rw [hx]

theorem envAfterMerge_override {apiKeys : List (String × String)} {name : String}
    {server : ServerDef} {envVar : String}
    (hreg : jsLookup MCP_SERVERS name = some server)
    (ht : truthyStr (jsLookup apiKeys name) = true)
    (hev : server.apiKeyEnvVar = some envVar) (config ex : McpEntry) :
    envAfterMerge apiKeys name config ex =
      jsSet (jsSpread (config.env.getD []) (ex.env.getD []))
        envVar ((jsLookup apiKeys name).getD "") := by
  simp only [envAfterMerge, ht, hreg, hev, if_true]

theorem envAfterMerge_plain {apiKeys : List (String × String)} {name : String}
    {server : ServerDef}
    (hreg : jsLookup MCP_SERVERS name = some server)
    (hA : (truthyStr (jsLookup apiKeys name) && server.requiresApiKey) = false)
    (config ex : McpEntry) :
    envAfterMerge apiKeys name config ex =
      jsSpread (config.env.getD []) (ex.env.getD []) := by
  unfold envAfterMerge
  cases ht : truthyStr (jsLookup apiKeys name) with
  | false => rfl
  | true =>
    rw [ht, Bool.true_and] at hA
    have hev : server.apiKeyEnvVar = none := by
      have h2 := (registry_wf hreg).2
      rw [hA] at h2
      cases hx : server.apiKeyEnvVar with
      | none => rfl
      | some v => rw [hx] at h2; simp at h2
    simp only [ht, hreg, hev, if_true]

/-- Core env-level fixpoint in the newly-supplied-credential case. -/
theorem cred_env_fix (ev key : String) (xe : List (String × String)) :
    jsSet (jsSpread [(ev, key)] (jsSet (jsSpread [(ev, key)] xe) ev key)) ev key
      = jsSet (jsSpread [(ev, key)] xe) ev key
    ∧ 0 < (jsSet (jsSpread [(ev, key)] xe) ev key).length := by
  have hkeys := keys_jsSpread_ext [(ev, key)] xe
  have hnodup : ((jsSpread [(ev, key)] xe).map (·.1)).Nodup :=
    nodup_keys_jsSpread (by simp)
  rcases hkeys with ⟨ext, hext⟩
  cases hm0 : jsSpread [(ev, key)] xe with
  | nil => rw [hm0] at hext; simp at hext
  | cons q rest =>
    rw [hm0] at hext hnodup
    simp only [List.map_cons, List.singleton_append] at hext
    have hq1 : q.1 = ev := by
      injection hext with h1 _
    have hni : ev ∉ rest.map (·.1) := by
      rw [List.map_cons, List.nodup_cons, hq1] at hnodup
      exact hnodup.1
    have hm1 : jsSet (q :: rest) ev key = (ev, key) :: rest :=
      jsSet_head_update key hq1 hni
    rw [hm1]
    constructor
    · have hstep : jsSpread [(ev, key)] ((ev, key) :: rest)
          = jsSpread (jsSet [(ev, key)] ev key) rest := rfl
      have hself : jsSet [(ev, key)] ev key = [(ev, key)] :=
        jsSet_head_update key rfl (by simp)
      have hfr : jsSpread [(ev, key)] rest = [(ev, key)] ++ rest := by
        apply jsSpread_fresh
        · rw [List.map_cons, List.nodup_cons, hq1] at hnodup
          exact hnodup.2
        · intro p hp
          have hne : ¬ (ev = p.1) := by
            intro hc
            exact hni (hc ▸ List.mem_map_of_mem _ hp)
          simp [hne]
      rw [hstep, hself, hfr, List.singleton_append]
      exact jsSet_head_update key rfl hni
    · simp

/-- Core env-level fixpoint in the no-credential case. -/
theorem plain_env_fix (xe : List (String × String)) :
    jsSpread [] (jsSpread [] xe) = jsSpread [] xe := by
  have h := jsSpread_fresh (a := ([] : List (String × String)))
    (b := jsSpread [] xe) (nodup_keys_jsSpread (by simp)) (by simp)
  simpa using h

end SuperClaudeKiro

namespace SuperClaudeKiro

/-- Re-merging an already merged entry is a no-op: the heart of
idempotence of `configureMcpServers`. -/
theorem mergeServerEntry_fix {e r : List (String × McpEntry)}
    {apiKeys : List (String × String)} {name : String} {config : McpEntry}
    {server : ServerDef}
    (hreg : jsLookup MCP_SERVERS name = some server)
    (hcfg : buildServerConfig name (jsOrNull (jsLookup apiKeys name)) = some config)
    (hr : jsLookup r name = some (mergeServerEntry e apiKeys name config)) :
    mergeServerEntry r apiKeys name config = mergeServerEntry e apiKeys name config := by
  have hwf := registry_wf hreg
  rw [buildServerConfig_eq hreg] at hcfg
  by_cases hA : (truthyStr (jsLookup apiKeys name) && server.requiresApiKey) = true
  · obtain ⟨ht, hrq⟩ : truthyStr (jsLookup apiKeys name) = true
        ∧ server.requiresApiKey = true := by
      simpa using hA
    obtain ⟨envVar, hev⟩ : ∃ ev, server.apiKeyEnvVar = some ev := by
      cases hx : server.apiKeyEnvVar with
      | some v => exact ⟨v, rfl⟩
      | none =>
        have h2 := hwf.2
        rw [hx, hrq] at h2
        exact absurd h2 (by simp)
    have hcond : (truthyStr (jsOrNull (jsLookup apiKeys name)) && server.requiresApiKey)
        = true := by
      rw [truthyStr_jsOrNull]
      exact hA
    rw [if_pos hcond, jsOrNull_of_truthy ht, hev, Option.getD_some] at hcfg
    have hconfig : { server.config with
        env := some [(envVar, (jsLookup apiKeys name).getD "")] } = config := by
      injection hcfg
    have hcenv : config.env = some [(envVar, (jsLookup apiKeys name).getD "")] := by
      rw [← hconfig]
    have hEA : ∀ ex : McpEntry, envAfterMerge apiKeys name config ex
        = jsSet (jsSpread [(envVar, (jsLookup apiKeys name).getD "")] (ex.env.getD []))
            envVar ((jsLookup apiKeys name).getD "") := by
      intro ex
      rw [envAfterMerge_override hreg ht hev, hcenv]
      rfl
    cases hx : jsLookup e name with
    | some ex =>
      have hfix := cred_env_fix envVar ((jsLookup apiKeys name).getD "") (ex.env.getD [])
      have hE1 : mergeServerEntry e apiKeys name config =
          { config with env := some (jsSet
              (jsSpread [(envVar, (jsLookup apiKeys name).getD "")] (ex.env.getD []))
              envVar ((jsLookup apiKeys name).getD "")) } := by
        rw [mergeServerEntry_of_some config hx, hEA ex, if_pos hfix.2]
      have hgd : (mergeServerEntry e apiKeys name config).env.getD []
          = jsSet (jsSpread [(envVar, (jsLookup apiKeys name).getD "")] (ex.env.getD []))
              envVar ((jsLookup apiKeys name).getD "") := by
        rw [hE1]
        rfl
      rw [mergeServerEntry_of_some config hr, hEA, hgd, hfix.1, if_pos hfix.2, hE1]
    | none =>
      have hE1 : mergeServerEntry e apiKeys name config = config :=
        mergeServerEntry_of_none config hx
      have hgd : (mergeServerEntry e apiKeys name config).env.getD []
          = [(envVar, (jsLookup apiKeys name).getD "")] := by
        rw [hE1, hcenv]
        rfl
      have hself : jsSet [(envVar, (jsLookup apiKeys name).getD "")]
          envVar ((jsLookup apiKeys name).getD "")
            = [(envVar, (jsLookup apiKeys name).getD "")] :=
        jsSet_head_update _ rfl (by simp)
      have hsp : jsSpread [(envVar, (jsLookup apiKeys name).getD "")]
          [(envVar, (jsLookup apiKeys name).getD "")]
            = [(envVar, (jsLookup apiKeys name).getD "")] := hself
      rw [mergeServerEntry_of_some config hr, hEA, hgd, hsp, hself,
        if_pos (by simp), ← hcenv, hE1]
  · have hA' : (truthyStr (jsLookup apiKeys name) && server.requiresApiKey) = false := by
      cases hx : truthyStr (jsLookup apiKeys name) && server.requiresApiKey with
      | false => rfl
      | true => exact absurd hx hA
    have hcond : (truthyStr (jsOrNull (jsLookup apiKeys name)) && server.requiresApiKey)
        = false := by
      rw [truthyStr_jsOrNull]
      exact hA'
    rw [if_neg (by rw [hcond]; simp)] at hcfg
    have hconfig : server.config = config := by injection hcfg
    have hcenv : config.env = none := by
      rw [← hconfig]
      exact hwf.1
    have hEA : ∀ ex : McpEntry, envAfterMerge apiKeys name config ex
        = jsSpread [] (ex.env.getD []) := by
      intro ex
      rw [envAfterMerge_plain hreg hA', hcenv]
      rfl
    cases hx : jsLookup e name with
    | some ex =>
      have hE1 : mergeServerEntry e apiKeys name config =
          { config with
              env := if (jsSpread [] (ex.env.getD [])).length > 0 then
                       some (jsSpread [] (ex.env.getD []))
                     else config.env } := by
        rw [mergeServerEntry_of_some config hx, hEA ex]
      have hgd : (mergeServerEntry e apiKeys name config).env.getD []
          = jsSpread [] (ex.env.getD []) := by
        rw [hE1]
        by_cases hlen : (jsSpread [] (ex.env.getD [])).length > 0
        · rw [if_pos hlen]
          rfl
        · have hnil : jsSpread [] (ex.env.getD []) = [] := by
            cases hc : jsSpread [] (ex.env.getD []) with
            | nil => rfl
            | cons q rest => rw [hc] at hlen; simp at hlen
          rw [if_neg hlen, hcenv, hnil]
          rfl
      rw [mergeServerEntry_of_some config hr, hEA, hgd, plain_env_fix, hE1]
    | none =>
      have hE1 : mergeServerEntry e apiKeys name config = config :=
        mergeServerEntry_of_none config hx
      have hgd : (mergeServerEntry e apiKeys name config).env.getD []
          = ([] : List (String × String)) := by
        rw [hE1, hcenv]
        rfl
      rw [mergeServerEntry_of_some config hr, hEA, hgd,
        show jsSpread ([] : List (String × String)) [] = [] from rfl,
        if_neg (by simp), hE1]

end SuperClaudeKiro

namespace SuperClaudeKiro

theorem dropManagedAux_append (l₁ l₂ acc : List (String × McpEntry)) :
    dropManagedAux acc (l₁ ++ l₂) = dropManagedAux (dropManagedAux acc l₁) l₂ := by
  induction l₁ generalizing acc with
  | nil => rfl
  | cons p rest ih =>
    rw [List.cons_append, dropManagedAux, dropManagedAux]
    exact ih _

theorem dropManaged_self (e : List (String × McpEntry)) :
    dropManagedAux [] (dropManaged e) = dropManaged e := by
  rw [dropManagedAux_filter (dropManaged e) [] (dropManaged_nodup e) (by simp)]
  rw [List.nil_append]
  apply List.filter_eq_self.mpr
  intro p hp
  have h := dropManaged_unmanaged (List.mem_map_of_mem (·.1) hp)
  simp only [h, Bool.not_false]

theorem dropManaged_append_managed {e b : List (String × McpEntry)}
    (hb : ∀ p ∈ b, MANAGED_SERVERS.contains p.1 = true) :
    dropManaged (dropManaged e ++ b) = dropManaged e := by
  unfold dropManaged
  rw [dropManagedAux_append]
  have h1 : dropManagedAux [] (dropManaged e) = dropManaged e := dropManaged_self e
  unfold dropManaged at h1
  rw [h1]
  exact dropManagedAux_skip b _ hb

/-- The merged output looked up at a selected managed name is the
merged entry for that name. -/
theorem configureMcpServers_lookup_selected {e : List (String × McpEntry)}
    {sel : List String} {apiKeys : List (String × String)} {name : String}
    {config : McpEntry}
    (hN : jsLookup (newServersOf sel apiKeys) name = some config) :
    jsLookup (configureMcpServers e sel apiKeys) name
      = some (mergeServerEntry e apiKeys name config) := by
  rw [configureMcpServers_eq]
  have hman : MANAGED_SERVERS.contains name = true := by
    apply contains_managed_of_isSome
    apply registry_isSome_of_buildServerConfig
    exact newServersOf_build (jsLookup_mem hN)
  rw [jsLookup_append_none _ (dropManaged_lookup_managed hman)]
  exact jsLookup_map_val (fun n c => mergeServerEntry e apiKeys n c) hN

/-- C1. For every existing persisted configuration, selection of server
names, and credential mapping, applying the server merge twice with the
same selection and credentials yields the same configuration as
applying it once. -/
theorem configureMcpServers_idempotent (existing : List (String × McpEntry))
    (selectedServers : List String) (apiKeys : List (String × String)) :
    configureMcpServers (configureMcpServers existing selectedServers apiKeys)
        selectedServers apiKeys
      = configureMcpServers existing selectedServers apiKeys := by
  have hE := configureMcpServers_eq existing selectedServers apiKeys
  have hmapped : ∀ p ∈ (newServersOf selectedServers apiKeys).map
      (fun p => (p.1, mergeServerEntry existing apiKeys p.1 p.2)),
      MANAGED_SERVERS.contains p.1 = true := by
    intro p hp
    rcases List.mem_map.mp hp with ⟨q, hq, rfl⟩
    exact contains_managed_of_isSome
      (registry_isSome_of_buildServerConfig
        (@newServersOf_build selectedServers apiKeys q hq))
  rw [configureMcpServers_eq (configureMcpServers existing selectedServers apiKeys)
    selectedServers apiKeys]
  have hdm : dropManaged (configureMcpServers existing selectedServers apiKeys)
      = dropManaged existing := by
    rw [hE]
    exact dropManaged_append_managed hmapped
  rw [hdm]
  have hmap : (newServersOf selectedServers apiKeys).map
      (fun p => (p.1, mergeServerEntry
        (configureMcpServers existing selectedServers apiKeys) apiKeys p.1 p.2))
        = (newServersOf selectedServers apiKeys).map
      (fun p => (p.1, mergeServerEntry existing apiKeys p.1 p.2)) := by
    apply List.map_congr_left
    intro p hp
    have hb := newServersOf_build hp
    obtain ⟨server, hserver⟩ : ∃ s, jsLookup MCP_SERVERS p.1 = some s := by
      cases hl : jsLookup MCP_SERVERS p.1 with
      | some s => exact ⟨s, rfl⟩
      | none =>
        have := registry_isSome_of_buildServerConfig hb
        rw [hl] at this
        simp at this
    have hNlook : jsLookup (newServersOf selectedServers apiKeys) p.1 = some p.2 :=
      jsLookup_of_mem_nodup (newServersOf_nodup selectedServers apiKeys) hp
    have hr : jsLookup (configureMcpServers existing selectedServers apiKeys) p.1
        = some (mergeServerEntry existing apiKeys p.1 p.2) :=
      configureMcpServers_lookup_selected hNlook
    have hfix := mergeServerEntry_fix hserver hb hr
    rw [hfix]
  rw [hmap, hE]

end SuperClaudeKiro

namespace SuperClaudeKiro

/-!
Further consequences of the merge used to settle the remaining claims.
-/

theorem jsLookup_eq_none_of_not_mem_keys {V : Type} {l : List (String × V)} {k : String}
    (h : k ∉ l.map (·.1)) : jsLookup l k = none := by
  cases hl : jsLookup l k with
  | none => rfl
  | some v => exact absurd (jsLookup_isSome_iff_mem_keys.mp (by simp [hl])) h

theorem mem_keys_exists {V : Type} {l : List (String × V)} {k : String}
    (h : k ∈ l.map (·.1)) : ∃ v, (k, v) ∈ l := by
  rcases List.mem_map.mp h with ⟨p, hp, hpk⟩
  refine ⟨p.2, ?_⟩
  rw [← hpk]
  exact hp

theorem keys_map_pair {V W : Type} (l : List (String × V)) (g : String → V → W) :
    (l.map (fun p => (p.1, g p.1 p.2))).map (·.1) = l.map (·.1) := by
  rw [List.map_map]
  rfl

theorem length_pos_of_jsLookup_some {V : Type} {l : List (String × V)} {k : String}
    {v : V} (h : jsLookup l k = some v) : 0 < l.length := by
  cases l with
  | nil => simp at h
  | cons p rest => simp

/-- Keys produced by the `newServers` loop are absent when the name is
not in the registry. -/
theorem newServersOf_keys_registry {sel : List String} {apiKeys : List (String × String)}
    {name : String} (hreg : jsLookup MCP_SERVERS name = none) :
    name ∉ (newServersOf sel apiKeys).map (·.1) := by
  intro hmem
  rcases mem_keys_exists hmem with ⟨v, hv⟩
  have := registry_isSome_of_buildServerConfig (newServersOf_build hv)
  rw [hreg] at this
  simp at this

/-- Keys produced by the `newServers` loop all come from the selection. -/
theorem newServersOf_keys_sel {sel : List String} {apiKeys : List (String × String)}
    {name : String} (hsel : name ∉ sel) :
    name ∉ (newServersOf sel apiKeys).map (·.1) := by
  intro hmem
  rcases newServersAux_keys apiKeys sel [] name hmem with h | h
  · simp at h
  · exact hsel h

/-- An unknown selected name changes nothing: the `newServers` loop
skips it. -/
theorem newServersAux_filter_unknown {apiKeys : List (String × String)} {name : String}
    (hreg : jsLookup MCP_SERVERS name = none) :
    ∀ (sel : List String) (acc : List (String × McpEntry)),
      newServersAux apiKeys acc sel
        = newServersAux apiKeys acc (sel.filter (fun s => s ≠ name)) := by
  intro sel
  induction sel with
  | nil => intro acc; rfl
  | cons s rest ih =>
    intro acc
    by_cases hs : s = name
    · subst hs
      rw [newServersAux, buildServerConfig_of_none hreg, List.filter_cons,
        if_neg (by simp)]
      exact ih acc
    · rw [newServersAux, List.filter_cons, if_pos (by simp [hs]), newServersAux]
      cases hb : buildServerConfig s (jsOrNull (jsLookup apiKeys s)) with
      | none => exact ih acc
      | some c => exact ih _

theorem dropManaged_lookup_of_unmanaged {e : List (String × McpEntry)} {name : String}
    (hnodup : (e.map (·.1)).Nodup) (hman : MANAGED_SERVERS.contains name = false) :
    jsLookup (dropManaged e) name = jsLookup e name := by
  rw [dropManaged_filter hnodup]
  apply jsLookup_filter
  intro p hp
  rw [hp, hman]
  rfl

theorem dropManaged_lookup_none {e : List (String × McpEntry)} {name : String}
    (h : jsLookup e name = none) : jsLookup (dropManaged e) name = none := by
  apply jsLookup_eq_none_of_not_mem_keys
  intro hmem
  rcases dropManagedAux_keys e [] name hmem with hk | hk
  · simp at hk
  · have : (jsLookup e name).isSome := jsLookup_isSome_iff_mem_keys.mpr hk
    rw [h] at this
    simp at this

theorem mergeServerEntry_fields (e : List (String × McpEntry))
    (apiKeys : List (String × String)) (name : String) (config : McpEntry) :
    (mergeServerEntry e apiKeys name config).command = config.command
    ∧ (mergeServerEntry e apiKeys name config).args = config.args
    ∧ (mergeServerEntry e apiKeys name config).autoApprove = config.autoApprove := by
  cases hx : jsLookup e name with
  | some ex =>
    rw [mergeServerEntry_of_some config hx]
    exact ⟨rfl, rfl, rfl⟩
  | none =>
    rw [mergeServerEntry_of_none config hx]
    exact ⟨rfl, rfl, rfl⟩

theorem buildServerConfig_fields {name : String} {server : ServerDef}
    {apiKey : Option String} {config : McpEntry}
    (hreg : jsLookup MCP_SERVERS name = some server)
    (h : buildServerConfig name apiKey = some config) :
    config.command = server.config.command
    ∧ config.args = server.config.args
    ∧ config.autoApprove = server.config.autoApprove := by
  rw [buildServerConfig_eq hreg] at h
  by_cases hc : (truthyStr apiKey && server.requiresApiKey) = true
  · rw [if_pos hc] at h
    injection h with h'
    rw [← h']
    exact ⟨rfl, rfl, rfl⟩
  · rw [if_neg hc] at h
    injection h with h'
    rw [← h']
    exact ⟨rfl, rfl, rfl⟩

end SuperClaudeKiro

namespace SuperClaudeKiro

/-- Sample unmanaged-style entry used by concrete witnesses. -/
def sampleEntry : McpEntry :=
  ⟨"old-cmd", [], [], none⟩

/-- Sample pre-existing managed entry with user-set env used by
concrete witnesses. -/
def sampleEnvEntry : McpEntry :=
  ⟨"old-cmd", [], [], some [("MORPH_API_KEY", "oldkey"), ("EXTRA", "x")]⟩

/-- The registry record of the one credential-requiring server, used by
concrete witnesses. -/
def morphServer : ServerDef :=
  ⟨"morphllm-fast-apply", true, some "MORPH_API_KEY",
    ⟨"npx", ["-y", "@morph-llm/morph-fast-apply"], ["edit_file"], none⟩⟩

/-- The registry record of the `context7` server, used by concrete
witnesses. -/
def ctx7Server : ServerDef :=
  ⟨"context7", false, none,
    ⟨"npx", ["-y", "@upstash/context7-mcp"], ["resolve-library-id", "get-library-docs"], none⟩⟩

/-- C2. Every entry of the existing configuration whose name is not in
the registry (unmanaged) is present in the merged output with exactly
the same value, regardless of the selection and credentials supplied. -/
theorem unmanaged_entries_preserved
    (existing : List (String × McpEntry)) (sel : List String)
    (apiKeys : List (String × String)) (name : String) (v : McpEntry)
    (hnodup : (existing.map (·.1)).Nodup)
    (hman : MANAGED_SERVERS.contains name = false)
    (hv : jsLookup existing name = some v) :
    jsLookup (configureMcpServers existing sel apiKeys) name = some v := by
  rw [configureMcpServers_eq]
  apply jsLookup_append_some
  rw [dropManaged_lookup_of_unmanaged hnodup hman]
  exact hv

theorem unmanaged_entries_preserved_witness :
    jsLookup (configureMcpServers [("my-server", sampleEntry)] ["context7"] []) "my-server"
      = some sampleEntry :=
  unmanaged_entries_preserved _ _ _ _ _ (by decide) (by decide) (by decide)

/-- C3. If the existing configuration has a managed entry `X` with an
environment key bound to some value, the selection includes `X`, and
the credential mapping has no entry for `X`, then the merged output's
entry for `X` retains that environment key with its prior value. -/
theorem secret_preserved
    (existing : List (String × McpEntry)) (sel : List String)
    (apiKeys : List (String × String)) (name envKey oldVal : String)
    (server : ServerDef) (ex : McpEntry)
    (hreg : jsLookup MCP_SERVERS name = some server)
    (hsel : name ∈ sel)
    (hex : jsLookup existing name = some ex)
    (hcred : jsLookup apiKeys name = none)
    (hexnodup : ((ex.env.getD []).map (·.1)).Nodup)
    (hold : jsLookup (ex.env.getD []) envKey = some oldVal) :
    ∃ entry, jsLookup (configureMcpServers existing sel apiKeys) name = some entry
      ∧ jsLookup (entry.env.getD []) envKey = some oldVal := by
  have hb : buildServerConfig name (jsOrNull (jsLookup apiKeys name)) = some server.config := by
    rw [buildServerConfig_eq hreg, hcred]
    rfl
  have hNS := newServersOf_lookup hsel hb
  refine ⟨_, @configureMcpServers_lookup_selected existing sel apiKeys name server.config hNS, ?_⟩
  have hA' : (truthyStr (jsLookup apiKeys name) && server.requiresApiKey) = false := by
    rw [hcred]
    rfl
  have hcenv : server.config.env = none := (registry_wf hreg).1
  rw [mergeServerEntry_of_some server.config hex, envAfterMerge_plain hreg hA', hcenv]
  have hsp : jsSpread ((none : Option (List (String × String))).getD []) (ex.env.getD [])
      = ex.env.getD [] := by
    have h := jsSpread_fresh (a := ([] : List (String × String))) hexnodup (by simp)
    simpa using h
  rw [hsp, if_pos (length_pos_of_jsLookup_some hold)]
  exact hold

theorem secret_preserved_witness :
    ∃ entry, jsLookup (configureMcpServers [("morphllm-fast-apply", sampleEnvEntry)]
        ["morphllm-fast-apply"] []) "morphllm-fast-apply" = some entry
      ∧ jsLookup (entry.env.getD []) "MORPH_API_KEY" = some "oldkey" :=
  secret_preserved _ _ _ _ _ _ morphServer sampleEnvEntry (by decide) (by decide)
    (by decide) (by decide) (by decide) (by decide)

/-- C4. If the existing configuration has a managed entry `X` whose
definition requires a credential, the credential mapping supplies a
non-empty value for `X`, and the selection includes `X`, then the
merged output binds `X`'s credential environment variable to the newly
supplied value, regardless of what was stored before. -/
theorem secret_overridden
    (existing : List (String × McpEntry)) (sel : List String)
    (apiKeys : List (String × String)) (name envVar newKey : String)
    (server : ServerDef) (ex : McpEntry)
    (hreg : jsLookup MCP_SERVERS name = some server)
    (hrq : server.requiresApiKey = true)
    (hev : server.apiKeyEnvVar = some envVar)
    (hsel : name ∈ sel)
    (hex : jsLookup existing name = some ex)
    (hcred : jsLookup apiKeys name = some newKey)
    (hne : newKey ≠ "") :
    ∃ entry, jsLookup (configureMcpServers existing sel apiKeys) name = some entry
      ∧ jsLookup (entry.env.getD []) envVar = some newKey := by
  have ht : truthyStr (jsLookup apiKeys name) = true := by
    rw [hcred]
    simp [truthyStr, hne]
  have hb : buildServerConfig name (jsOrNull (jsLookup apiKeys name))
      = some { server.config with env := some [(envVar, newKey)] } := by
    rw [buildServerConfig_eq hreg, jsOrNull_of_truthy ht, hcred]
    rw [if_pos (by rw [hrq]; simp [truthyStr, hne])]
    rw [hev, Option.getD_some, Option.getD_some]
  have hNS := newServersOf_lookup hsel hb
  refine ⟨_, @configureMcpServers_lookup_selected existing sel apiKeys name
    { server.config with env := some [(envVar, newKey)] } hNS, ?_⟩
  rw [mergeServerEntry_of_some _ hex, envAfterMerge_override hreg ht hev]
  rw [hcred, Option.getD_some]
  rw [if_pos (List.length_pos.mpr (jsSet_ne_nil _ _ _))]
  exact jsLookup_jsSet_self _ _ _

theorem secret_overridden_witness :
    ∃ entry, jsLookup (configureMcpServers [("morphllm-fast-apply", sampleEnvEntry)]
        ["morphllm-fast-apply"] [("morphllm-fast-apply", "newkey")]) "morphllm-fast-apply"
          = some entry
      ∧ jsLookup (entry.env.getD []) "MORPH_API_KEY" = some "newkey" :=
  secret_overridden _ _ _ _ _ _ morphServer sampleEnvEntry (by decide) (by decide)
    (by decide) (by decide) (by decide) (by decide) (by decide)

/-- C5 (counterexample): a managed entry (`context7`) present in the
existing configuration but not selected is removed by the merge, so the
claim that it is still present unchanged is false. -/
theorem deselected_managed_removed_counterexample :
    jsLookup [("context7", sampleEntry)] "context7" = some sampleEntry
    ∧ MANAGED_SERVERS.contains "context7" = true
    ∧ jsLookup (configureMcpServers [("context7", sampleEntry)] [] []) "context7" = none := by
  refine ⟨by decide, by decide, by decide⟩

/-- C5 (amended). A managed entry (name in the registry) that is not in
the selection is absent from the merged output: the merge keeps only
unmanaged entries and selected managed entries, so deselecting a
previously-installed managed server removes its entry. -/
theorem deselected_managed_removed
    (existing : List (String × McpEntry)) (sel : List String)
    (apiKeys : List (String × String)) (name : String)
    (hman : MANAGED_SERVERS.contains name = true)
    (hsel : name ∉ sel) :
    jsLookup (configureMcpServers existing sel apiKeys) name = none := by
  rw [configureMcpServers_eq]
  rw [jsLookup_append_none _ (dropManaged_lookup_managed hman)]
  apply jsLookup_eq_none_of_not_mem_keys
  rw [keys_map_pair]
  exact newServersOf_keys_sel hsel

theorem deselected_managed_removed_witness :
    jsLookup (configureMcpServers [("context7", sampleEntry)] ["playwright"] []) "context7"
      = none :=
  deselected_managed_removed _ _ _ _ (by decide) (by decide)

/-- C6. Every selected name that is in the registry is present in the
merged output, and its non-environment launch configuration fields
(command, arguments, auto-approve list) equal the current registry
defaults for that name, even if a prior entry held different values. -/
theorem selected_refreshed
    (existing : List (String × McpEntry)) (sel : List String)
    (apiKeys : List (String × String)) (name : String) (server : ServerDef)
    (hreg : jsLookup MCP_SERVERS name = some server)
    (hsel : name ∈ sel) :
    ∃ entry, jsLookup (configureMcpServers existing sel apiKeys) name = some entry
      ∧ entry.command = server.config.command
      ∧ entry.args = server.config.args
      ∧ entry.autoApprove = server.config.autoApprove := by
  obtain ⟨config, hb⟩ : ∃ c, buildServerConfig name (jsOrNull (jsLookup apiKeys name))
      = some c := by
    rw [buildServerConfig_eq hreg]
    exact ⟨_, rfl⟩
  have hNS := newServersOf_lookup hsel hb
  refine ⟨_, @configureMcpServers_lookup_selected existing sel apiKeys name config hNS, ?_⟩
  have hf := mergeServerEntry_fields existing apiKeys name config
  have hbf := buildServerConfig_fields hreg hb
  exact ⟨hf.1.trans hbf.1, hf.2.1.trans hbf.2.1, hf.2.2.trans hbf.2.2⟩

theorem selected_refreshed_witness :
    ∃ entry, jsLookup (configureMcpServers [("context7", sampleEntry)] ["context7"] [])
        "context7" = some entry
      ∧ entry.command = ctx7Server.config.command
      ∧ entry.args = ctx7Server.config.args
      ∧ entry.autoApprove = ctx7Server.config.autoApprove :=
  selected_refreshed _ _ _ _ ctx7Server (by decide) (by decide)

/-- C7 (counterexample): a selection name absent from the registry does
produce an output entry when the existing configuration already holds
an (unmanaged) entry of that name, so "produces no output entry for
that name" is false as stated. -/
theorem unknown_selected_counterexample :
    jsLookup MCP_SERVERS "mystery-server" = none
    ∧ jsLookup (configureMcpServers [("mystery-server", sampleEntry)]
        ["mystery-server"] []) "mystery-server" = some sampleEntry := by
  refine ⟨by decide, by decide⟩

/-- C7 (amended). A selection name absent from the registry is silently
ignored and never causes a failure: the merge result equals the result
with that name removed from the selection, and when the existing
configuration has no entry of that name, neither does the output. -/
theorem unknown_selected_ignored
    (existing : List (String × McpEntry)) (sel : List String)
    (apiKeys : List (String × String)) (name : String)
    (hreg : jsLookup MCP_SERVERS name = none) :
    configureMcpServers existing sel apiKeys
      = configureMcpServers existing (sel.filter (fun s => s ≠ name)) apiKeys
    ∧ (jsLookup existing name = none →
        jsLookup (configureMcpServers existing sel apiKeys) name = none) := by
  constructor
  · unfold configureMcpServers newServersOf
    rw [← newServersAux_filter_unknown hreg sel []]
  · intro hex
    rw [configureMcpServers_eq]
    rw [jsLookup_append_none _ (dropManaged_lookup_none hex)]
    apply jsLookup_eq_none_of_not_mem_keys
    rw [keys_map_pair]
    exact newServersOf_keys_registry hreg

theorem unknown_selected_ignored_witness :
    configureMcpServers [] ["mystery-server", "context7"] []
      = configureMcpServers []
          (["mystery-server", "context7"].filter (fun s => s ≠ "mystery-server")) []
    ∧ jsLookup (configureMcpServers [] ["mystery-server", "context7"] []) "mystery-server"
      = none := by
  have h := unknown_selected_ignored [] ["mystery-server", "context7"] [] "mystery-server"
    (by decide)
  exact ⟨h.1, h.2 (by decide)⟩

end SuperClaudeKiro

namespace SuperClaudeKiro

theorem jsOrNull_delete_eq {apiKeys : List (String × String)} {name : String}
    (hcred : jsLookup apiKeys name = some "") (s : String) :
    jsOrNull (jsLookup (jsDelete apiKeys name) s) = jsOrNull (jsLookup apiKeys s) := by
  by_cases hs : s = name
  · subst hs
    rw [hcred, jsLookup_jsDelete_self]
    rfl
  · rw [jsLookup_jsDelete_ne _ _ hs]

theorem envAfterMerge_delete_eq {apiKeys : List (String × String)} {name : String}
    (hcred : jsLookup apiKeys name = some "") (n : String) (config ex : McpEntry) :
    envAfterMerge (jsDelete apiKeys name) n config ex
      = envAfterMerge apiKeys n config ex := by
  unfold envAfterMerge
  by_cases hn : n = name
  · subst hn
    rw [hcred, jsLookup_jsDelete_self]
    rfl
  · rw [jsLookup_jsDelete_ne _ _ hn]

theorem mergeServerEntry_delete_eq {apiKeys : List (String × String)} {name : String}
    (hcred : jsLookup apiKeys name = some "")
    (existing : List (String × McpEntry)) (n : String) (config : McpEntry) :
    mergeServerEntry existing (jsDelete apiKeys name) n config
      = mergeServerEntry existing apiKeys n config := by
  cases hx : jsLookup existing n with
  | none => rw [mergeServerEntry_of_none _ hx, mergeServerEntry_of_none _ hx]
  | some ex =>
    rw [mergeServerEntry_of_some _ hx, mergeServerEntry_of_some _ hx,
      envAfterMerge_delete_eq hcred]

theorem newServersAux_delete_eq {apiKeys : List (String × String)} {name : String}
    (hcred : jsLookup apiKeys name = some "") :
    ∀ (sel : List String) (acc : List (String × McpEntry)),
      newServersAux (jsDelete apiKeys name) acc sel = newServersAux apiKeys acc sel := by
  intro sel
  induction sel with
  | nil => intro acc; rfl
  | cons s rest ih =>
    intro acc
    rw [newServersAux, newServersAux, jsOrNull_delete_eq hcred s]
    cases hb : buildServerConfig s (jsOrNull (jsLookup apiKeys s)) with
    | none => exact ih acc
    | some c => exact ih _

/-- C10. A credential supplied as the empty string is treated exactly
as an absent credential: the merge result is the same as if the
credential mapping had no entry for that name at all (so no env var is
created from it for a fresh entry, and a stored credential env value is
preserved rather than overwritten with the empty string). -/
theorem empty_credential_ignored
    (existing : List (String × McpEntry)) (sel : List String)
    (apiKeys : List (String × String)) (name : String)
    (hcred : jsLookup apiKeys name = some "") :
    configureMcpServers existing sel apiKeys
      = configureMcpServers existing sel (jsDelete apiKeys name) := by
  rw [configureMcpServers_eq, configureMcpServers_eq]
  have hNS : newServersOf sel (jsDelete apiKeys name) = newServersOf sel apiKeys :=
    newServersAux_delete_eq hcred sel []
  rw [hNS]
  congr 1
  apply List.map_congr_left
  intro p hp
  rw [mergeServerEntry_delete_eq hcred]

theorem empty_credential_ignored_witness :
    jsLookup [("morphllm-fast-apply", "")] "morphllm-fast-apply" = some ""
    ∧ configureMcpServers [("morphllm-fast-apply", sampleEnvEntry)] ["morphllm-fast-apply"]
        [("morphllm-fast-apply", "")]
      = configureMcpServers [("morphllm-fast-apply", sampleEnvEntry)] ["morphllm-fast-apply"]
          (jsDelete [("morphllm-fast-apply", "")] "morphllm-fast-apply") :=
  ⟨by decide, empty_credential_ignored _ _ _ _ (by decide)⟩

/-- C8 (counterexample): a settings map whose `chat.model` key is
present but bound to the empty string, and whose `chat.enableThinking`
key is present but bound to the number `0`, does not keep those prior
values: `setDefaultAgent` overwrites them, so "a key already present
keeps its prior value" is false as stated. -/
theorem setDefaultAgent_counterexample :
    jsLookup [("chat.model", JVal.s ""), ("chat.enableThinking", JVal.n 0)] "chat.model"
        = some (JVal.s "")
    ∧ jsLookup (setDefaultAgent [("chat.model", JVal.s ""), ("chat.enableThinking", JVal.n 0)])
        "chat.model" = some (JVal.s "claude-sonnet-4.5")
    ∧ jsLookup (setDefaultAgent [("chat.model", JVal.s ""), ("chat.enableThinking", JVal.n 0)])
        "chat.enableThinking" = some (JVal.b true) := by
  refine ⟨by decide, by decide, by decide⟩

/-- C8 (amended). `setDefaultAgent` sets the default-agent key
unconditionally; it sets the model key to the fixed default exactly
when the key is absent or its current value is falsy (so a present
truthy model string is kept, but an empty-string value is overwritten);
and it sets each of the three feature-flag keys to the boolean `true`
unless the current value is exactly the boolean `false` (so boolean
flag values are kept, but any non-boolean present value is overwritten
with `true`). -/
theorem setDefaultAgent_spec (settings : List (String × JVal)) :
    jsLookup (setDefaultAgent settings) "chat.defaultAgent" = some (JVal.s "superclaude")
    ∧ jsLookup (setDefaultAgent settings) "chat.model"
        = some (jsOr (jsLookup settings "chat.model") (JVal.s "claude-sonnet-4.5"))
    ∧ jsLookup (setDefaultAgent settings) "chat.enableThinking"
        = some (JVal.b (jsLookup settings "chat.enableThinking" != some (JVal.b false)))
    ∧ jsLookup (setDefaultAgent settings) "chat.enableTodoList"
        = some (JVal.b (jsLookup settings "chat.enableTodoList" != some (JVal.b false)))
    ∧ jsLookup (setDefaultAgent settings) "chat.enableDelegate"
        = some (JVal.b (jsLookup settings "chat.enableDelegate" != some (JVal.b false))) := by
  unfold setDefaultAgent
  refine ⟨?_, ?_, ?_, ?_, ?_⟩
  · rw [jsLookup_jsSet_ne _ _ _ (by decide), jsLookup_jsSet_ne _ _ _ (by decide),
      jsLookup_jsSet_ne _ _ _ (by decide), jsLookup_jsSet_ne _ _ _ (by decide),
      jsLookup_jsSet_self]
  · rw [jsLookup_jsSet_ne _ _ _ (by decide), jsLookup_jsSet_ne _ _ _ (by decide),
      jsLookup_jsSet_ne _ _ _ (by decide), jsLookup_jsSet_self,
      jsLookup_jsSet_ne _ _ _ (by decide)]
  · rw [jsLookup_jsSet_ne _ _ _ (by decide), jsLookup_jsSet_ne _ _ _ (by decide),
      jsLookup_jsSet_self, jsLookup_jsSet_ne _ _ _ (by decide),
      jsLookup_jsSet_ne _ _ _ (by decide)]
  · rw [jsLookup_jsSet_ne _ _ _ (by decide), jsLookup_jsSet_self,
      jsLookup_jsSet_ne _ _ _ (by decide), jsLookup_jsSet_ne _ _ _ (by decide),
      jsLookup_jsSet_ne _ _ _ (by decide)]
  · rw [jsLookup_jsSet_self, jsLookup_jsSet_ne _ _ _ (by decide),
      jsLookup_jsSet_ne _ _ _ (by decide), jsLookup_jsSet_ne _ _ _ (by decide),
      jsLookup_jsSet_ne _ _ _ (by decide)]

/-- C9. The default-agent unset step removes the `chat.defaultAgent`
key if and only if its current value is the expected installer agent
identifier (the string `superclaude`), leaving all other keys intact;
when the value differs, the map is returned entirely unchanged. -/
theorem unsetDefaultAgent_spec (settings : List (String × JVal)) :
    (jsLookup settings "chat.defaultAgent" = some (JVal.s "superclaude") →
      jsLookup (unsetDefaultAgent settings) "chat.defaultAgent" = none
      ∧ ∀ k : String, k ≠ "chat.defaultAgent" →
          jsLookup (unsetDefaultAgent settings) k = jsLookup settings k)
    ∧ (jsLookup settings "chat.defaultAgent" ≠ some (JVal.s "superclaude") →
      unsetDefaultAgent settings = settings) := by
  constructor
  · intro h
    unfold unsetDefaultAgent
    rw [if_pos h]
    exact ⟨jsLookup_jsDelete_self _ _, fun k hk => jsLookup_jsDelete_ne _ _ hk⟩
  · intro h
    unfold unsetDefaultAgent
    rw [if_neg h]

theorem unsetDefaultAgent_spec_witness :
    jsLookup (unsetDefaultAgent
        [("chat.defaultAgent", JVal.s "superclaude"), ("k", JVal.b true)])
      "chat.defaultAgent" = none
    ∧ unsetDefaultAgent [("chat.defaultAgent", JVal.s "other")]
      = [("chat.defaultAgent", JVal.s "other")] := by
  constructor
  · exact ((unsetDefaultAgent_spec _).1 (by decide)).1
  · exact (unsetDefaultAgent_spec _).2 (by decide)

end SuperClaudeKiro
